import Mathlib

/-!
Verification development for the kitt-slackbot repository.

JavaScript strings are modelled as `List Char` (all characters occurring in
the sources are in the basic multilingual plane, so character indices agree
with the UTF-16 indices used by the JavaScript string functions).  Fallible
code is modelled with `Option`/`Except`, the SQLite tables as Lean lists of
records, and each handler as a pure state-transformation function.
-/

set_option maxRecDepth 4000

/-! Generic helpers mirroring the JavaScript string primitives. -/

/-- Abbreviation: character list of a string literal. -/
def strL (s : String) : List Char := s.toList

/-- First index at which `needle` occurs in `hay` (JavaScript `indexOf` with
start position 0), as an `Option`. -/
def firstOccur (needle : List Char) : List Char → Option Nat
  | [] => if needle.isEmpty then some 0 else none
  | c :: t =>
    if needle.isPrefixOf (c :: t) then some 0
    else (firstOccur needle t).map (· + 1)

/-- JavaScript `hay.indexOf(needle, start)`, `none` standing for `-1`. -/
def jsIndexOfFrom (hay needle : List Char) (start : Nat) : Option Nat :=
  (firstOccur needle (hay.drop start)).map (· + start)

/-- JavaScript `hay.includes(needle)`. -/
def containsSub (needle hay : List Char) : Bool :=
  (firstOccur needle hay).isSome

/-- Whitespace in the sense of the JavaScript regular expression class. -/
def isWS (c : Char) : Bool :=
  c = ' ' || c = '\t' || c = '\n' || c = '\r'

/-- JavaScript `String.prototype.trim`. -/
def jsTrim (l : List Char) : List Char :=
  ((l.dropWhile isWS).reverse.dropWhile isWS).reverse

/-- ASCII lowering; JavaScript case-insensitive matching on the patterns of
this repository only involves ASCII letters. -/
def lowerL (l : List Char) : List Char := l.map Char.toLower

/-! Conversation store (`addMessage` in the conversation-storage module). -/

/-- Keep last N message pairs. -/
def CONVERSATION_MAX_MESSAGES : Nat := 10

/-- 30 minutes in milliseconds. -/
def CONVERSATION_TIMEOUT_MS : Nat := 30 * 60 * 1000

/-- A row of the `messages` table. -/
structure Msg where
  mid : Nat
  userId : List Char
  role : List Char
  content : List Char
  createdAt : Nat
  expiresAt : Nat
deriving DecidableEq, Repr

/-- The `messages` table together with the AUTOINCREMENT counter. -/
structure MsgStore where
  rows : List Msg
  nextId : Nat
deriving DecidableEq, Repr

/-- Insertion into the descending (created_at, id) order used to pick the
most recent rows in the trimming DELETE of `addMessage`. -/
def insertByDesc (m : Msg) : List Msg → List Msg
  | [] => [m]
  | x :: t =>
    if m.createdAt > x.createdAt ∨ (m.createdAt = x.createdAt ∧ m.mid ≥ x.mid) then
      m :: x :: t
    else x :: insertByDesc m t

/-- Sort rows by created_at descending (id as tie break). -/
def sortByCreatedDesc (l : List Msg) : List Msg :=
  l.foldr insertByDesc []

/-- `addMessage(userId, role, content)`: insert the new row with
`expires_at = now + CONVERSATION_TIMEOUT_MS`, extend `expires_at` of every
row of the same user to that value, then delete the user rows that are not
among the `CONVERSATION_MAX_MESSAGES * 2` most recent ones. -/
def addMessage (st : MsgStore) (userId role content : List Char) (now : Nat) :
    MsgStore :=
  let expiresAt := now + CONVERSATION_TIMEOUT_MS
  let inserted := st.rows ++ [⟨st.nextId, userId, role, content, now, expiresAt⟩]
  let updated := inserted.map fun m =>
    if m.userId == userId then { m with expiresAt := expiresAt } else m
  let userRows := updated.filter fun m => m.userId == userId
  let keepIds :=
    ((sortByCreatedDesc userRows).take (CONVERSATION_MAX_MESSAGES * 2)).map (·.mid)
  let rows2 := updated.filter fun m =>
    !(m.userId == userId) || keepIds.contains m.mid
  { rows := rows2, nextId := st.nextId + 1 }

/-! Pending-updates store (SQLite `pending_updates` table). -/

/-- A row of the `pending_updates` table. -/
structure UpdateRec where
  id : List Char
  type : List Char
  target : List Char
  value : List Char
  submittedBy : List Char
  submittedAt : List Char
  status : List Char
  source : Option (List Char)
  processedAt : Option (List Char)
  editedAt : Option (List Char)
  editedBy : Option (List Char)
  note : Option (List Char)
deriving DecidableEq, Repr

/-- `createUpdate(data)` with the freshly generated id and timestamp passed
explicitly (the source draws them from `Math.random` and `Date`). -/
def createUpdate (id type target value submittedBy submittedAt : List Char)
    (source : Option (List Char)) : UpdateRec :=
  { id, type, target, value, submittedBy, submittedAt,
    status := strL "pending", source,
    processedAt := none, editedAt := none, editedBy := none, note := none }

/-- `getUpdate(id)`: SELECT by primary key. -/
def getUpdate (rows : List UpdateRec) (id : List Char) : Option UpdateRec :=
  rows.find? fun r => r.id == id

/-- `updateStatus(id, status, note)`: the single conditional write
`UPDATE pending_updates SET status = ?, processed_at = ?,
note = COALESCE(?, note) WHERE id = ? AND status = 'pending'`, returning the
new table and the number of changed rows (`result.changes`). -/
def updateStatus (rows : List UpdateRec) (id status : List Char)
    (note : Option (List Char)) (processedAt : List Char) :
    List UpdateRec × Nat :=
  let hit := fun r : UpdateRec => r.id == id && r.status == strL "pending"
  let rows2 := rows.map fun r =>
    if hit r then
      { r with status := status, processedAt := some processedAt,
               note := match note with | some n => some n | none => r.note }
    else r
  (rows2, (rows.filter hit).length)

/-- Primary-key uniqueness of the `id` column. -/
def uniqueIds (rows : List UpdateRec) : Prop :=
  rows.Pairwise fun a b => a.id ≠ b.id

/-! Long-term memory store (`memory_candidates` and `memories` tables). -/

/-- One element of the parsed `extracted_memories` JSON array, as consumed by
`approveCandidate` (`mem.type || 'fact'`: the empty string models a missing
or falsy `type`). -/
structure MemItem where
  itype : List Char
  content : List Char
  context : Option (List Char)
  tags : List (List Char)
deriving DecidableEq, Repr

/-- A row of the `memory_candidates` table (with `raw_messages` and
`extracted_memories` already JSON-parsed, as `getCandidate` returns them). -/
structure Candidate where
  id : List Char
  source : List Char
  channel : Option (List Char)
  channelName : Option (List Char)
  threadTs : Option (List Char)
  threadUrl : Option (List Char)
  rawMessages : List (List Char)
  extractedMemories : List MemItem
  submittedBy : List Char
  submittedAt : List Char
  status : List Char
  reviewedBy : Option (List Char)
  reviewedAt : Option (List Char)
  notes : Option (List Char)
deriving DecidableEq, Repr

/-- A row of the `memories` table; memory ids are drawn from a counter
(the source builds them from `Date.now` and `Math.random`). -/
structure MemoryRec where
  id : Nat
  mtype : List Char
  content : List Char
  context : Option (List Char)
  source : List Char
  channel : Option (List Char)
  threadTs : Option (List Char)
  submittedBy : List Char
  approvedBy : List Char
  approvedAt : List Char
  tags : List (List Char)
deriving DecidableEq, Repr

/-- The shared memory database. -/
structure MemState where
  cands : List Candidate
  memories : List MemoryRec
  nextMemId : Nat
deriving DecidableEq, Repr

/-- `getCandidate(id)`. -/
def getCandidate (cands : List Candidate) (id : List Char) : Option Candidate :=
  cands.find? fun c => c.id == id

/-- JavaScript `a || b` on nullable strings (empty string is falsy). -/
def jsOrStr (a b : Option (List Char)) : Option (List Char) :=
  match a with
  | some x => if x.isEmpty then b else some x
  | none => b

/-- The row inserted into `memories` for one extracted item inside
`approveCandidate`. -/
def mkMemoryRec (cand : Candidate) (approvedBy now : List Char) (mid : Nat)
    (m : MemItem) : MemoryRec :=
  { id := mid,
    mtype := if m.itype.isEmpty then strL "fact" else m.itype,
    content := m.content,
    context := m.context,
    source := cand.source,
    channel := jsOrStr cand.channelName cand.channel,
    threadTs := cand.threadTs,
    submittedBy := cand.submittedBy,
    approvedBy := approvedBy,
    approvedAt := now,
    tags := m.tags }

/-- `approveCandidate(candidateId, approvedBy, selectedMemories)`: `none` if
the candidate is missing or not `pending`; otherwise insert one `memories`
row per extracted item and flip the candidate to `approved`. -/
def approveCandidate (st : MemState) (cid approvedBy now : List Char)
    (selectedMemories : Option (List MemItem)) :
    MemState × Option (List Nat) :=
  match getCandidate st.cands cid with
  | none => (st, none)
  | some cand =>
    if cand.status ≠ strL "pending" then (st, none)
    else
      let mems := selectedMemories.getD cand.extractedMemories
      let step := fun (acc : List MemoryRec × List Nat × Nat) (m : MemItem) =>
        (acc.1 ++ [mkMemoryRec cand approvedBy now acc.2.2 m],
         acc.2.1 ++ [acc.2.2], acc.2.2 + 1)
      let fin := mems.foldl step ([], [], st.nextMemId)
      let cands2 := st.cands.map fun c =>
        if c.id == cid then
          { c with status := strL "approved", reviewedBy := some approvedBy,
                   reviewedAt := some now }
        else c
      ({ cands := cands2, memories := st.memories ++ fin.1,
         nextMemId := fin.2.2 }, some fin.2.1)

/-- `rejectCandidate(candidateId, rejectedBy, notes)`: the unconditional
`UPDATE memory_candidates SET status = 'rejected', reviewed_by = ?,
reviewed_at = datetime('now'), notes = ? WHERE id = ?` followed by
`getCandidate`. -/
def rejectCandidate (st : MemState) (cid rejectedBy now : List Char)
    (notes : Option (List Char)) : MemState × Option Candidate :=
  let cands2 := st.cands.map fun c =>
    if c.id == cid then
      { c with status := strL "rejected", reviewedBy := some rejectedBy,
               reviewedAt := some now, notes := notes }
    else c
  ({ st with cands := cands2 }, getCandidate cands2 cid)

/-! Thread analyzer: defensive parsing of the model response
(`parseAIResponse` in the thread-analyzer module). -/

/-- A JavaScript value as produced by `JSON.parse`, extended with
`undefined` for missing-property access. -/
inductive JsValue where
  | null
  | undefined
  | bool (b : Bool)
  | num (n : Int)
  | str (s : List Char)
  | arr (items : List JsValue)
  | obj (fields : List (List Char × JsValue))
deriving Repr

/-- JavaScript truthiness of a value. -/
def JsValue.truthy : JsValue → Bool
  | .null => false
  | .undefined => false
  | .bool b => b
  | .num n => n ≠ 0
  | .str s => !s.isEmpty
  | .arr _ => true
  | .obj _ => true

/-- Property access `v[k]`: a TypeError (modelled as `Except.error`) on
`null`/`undefined`, the field or `undefined` on objects, `undefined` on the
other primitives. -/
def getProp : JsValue → List Char → Except Unit JsValue
  | .null, _ => .error ()
  | .undefined, _ => .error ()
  | .obj fields, k =>
    match fields.find? (fun p => p.1 == k) with
    | some p => .ok p.2
    | none => .ok .undefined
  | _, _ => .ok .undefined

/-- The filter predicate of `parseAIResponse`:
`if (!mem.type || !mem.content) return false; return true;` with the
short-circuit evaluation order of `||`. -/
def memKeep (mem : JsValue) : Except Unit Bool :=
  match getProp mem (strL "type") with
  | .error _ => .error ()
  | .ok tv =>
    if !tv.truthy then .ok false
    else
      match getProp mem (strL "content") with
      | .error _ => .error ()
      | .ok cv => .ok (!(!cv.truthy))

/-- `memories.filter(...)` over the parsed array; an exception from any
element aborts the whole filter. -/
def filterMems : List JsValue → Except Unit (List JsValue)
  | [] => .ok []
  | m :: rest =>
    match memKeep m with
    | .error _ => .error ()
    | .ok keep =>
      match filterMems rest with
      | .error _ => .error ()
      | .ok tail => .ok (if keep then m :: tail else tail)

/-- Drop a single leading newline, as the `\n?` tail of the code-fence
regular expressions consumes one. -/
def dropOneNL : List Char → List Char
  | '\n' :: r => r
  | r => r

/-- Global replacement of `pat` (plus one optional following newline) by the
empty string: `jsonStr.replace(/pat\n?/g, '')`. -/
def removeFencePat (pat : List Char) : List Char → List Char
  | [] => []
  | c :: t =>
    if h : pat ≠ [] ∧ pat.isPrefixOf (c :: t) then
      removeFencePat pat (dropOneNL ((c :: t).drop pat.length))
    else
      c :: removeFencePat pat t
termination_by l => l.length
decreasing_by
  · have hlen : pat.length ≥ 1 := by
      cases pat with
      | nil => exact absurd rfl h.1
      | cons a b => simp
    have h1 : (dropOneNL ((c :: t).drop pat.length)).length ≤
        ((c :: t).drop pat.length).length := by
      unfold dropOneNL
      split <;> simp_all
    have h2 : ((c :: t).drop pat.length).length = (c :: t).length - pat.length := by
      simp
    simp only [List.length_cons] at *
    omega
  · simp

/-- The code-fence stripping steps of `parseAIResponse`. -/
def stripFences (s : List Char) : List Char :=
  if containsSub (strL "```json") s then
    removeFencePat (strL "```") (removeFencePat (strL "```json") s)
  else if containsSub (strL "```") s then
    removeFencePat (strL "```") s
  else s

/-- `parseAIResponse(response)`, parametrised by the behaviour of
`JSON.parse` (`none` models a parse exception); the enclosing try/catch
turns every exception into the empty list. -/
def parseAIResponse (jsonParse : List Char → Option JsValue)
    (response : List Char) : List JsValue :=
  let s1 := jsTrim (stripFences (jsTrim response))
  match jsonParse s1 with
  | none => []
  | some v =>
    match v with
    | .arr items =>
      match filterMems items with
      | .error _ => []
      | .ok kept => kept
    | _ => []

/-! Intent classifier (rule-based patterns, capability confirmation and the
hybrid pipeline in the bot module). -/

/-- Match of a literal `b` after a possibly empty gap of non-line-terminator
characters, i.e. the `.*b` tail of a JavaScript regular expression (`.` does
not match a line terminator). -/
def headSeq (b : List Char) : List Char → Bool
  | [] => b.isPrefixOf ([] : List Char)
  | c :: r =>
    if b.isPrefixOf (c :: r) then true
    else if c = '\n' || c = '\r' then false
    else headSeq b r

/-- Existence of a match of the JavaScript regular expression `a.*b` in `t`
(for literal fragments `a`, `b`). -/
def seqTest (a b : List Char) : List Char → Bool
  | [] => false
  | c :: rest =>
    (a.isPrefixOf (c :: rest) && headSeq b ((c :: rest).drop a.length))
      || seqTest a b rest

/-- Query patterns of `detectKnowledgeUpdateIntent_RuleBased` (if any of
them matches, the text is a query and not a knowledge update). -/
def queryPatternsTest (t : List Char) : Bool :=
  (containsSub (strL "跟我說") t || containsSub (strL "告訴我") t
    || containsSub (strL "說一下") t || containsSub (strL "講一下") t
    || containsSub (strL "報告一下") t)
  || (seqTest (strL "目前") (strL "狀態") t || seqTest (strL "現在") (strL "狀態") t
    || seqTest (strL "最新") (strL "狀態") t)
  || (seqTest (strL "目前") (strL "進度") t || seqTest (strL "現在") (strL "進度") t
    || seqTest (strL "最新") (strL "進度") t)
  || (seqTest (strL "準備") (strL "進度") t || seqTest (strL "進度") (strL "如何") t
    || seqTest (strL "進度") (strL "怎") t)
  || (containsSub (strL "什麼") t || containsSub (strL "怎麼") t
    || containsSub (strL "如何") t || containsSub (strL "哪裡") t
    || containsSub (strL "哪個") t || containsSub (strL "幾時") t)
  || (t.contains '?' || t.contains '？')

/-- Update patterns of `detectKnowledgeUpdateIntent_RuleBased` (at least one
must match for the text to possibly be a knowledge update); patterns with
the `i` flag are tested on the ASCII-lowered text. -/
def updatePatternsTest (t : List Char) : Bool :=
  let lt := lowerL t
  (containsSub (strL "記得") t || containsSub (strL "記住") t
    || containsSub (strL "記錄") t || containsSub (strL "记得") t
    || containsSub (strL "记住") t || containsSub (strL "记录") t)
  || (seqTest (strL "更新") (strL "進度") lt || seqTest (strL "進度") (strL "更新") lt
    || seqTest (strL "update") (strL "progress") lt)
  || (containsSub (strL "新增") lt || containsSub (strL "加入") lt
    || containsSub (strL "添加") lt || containsSub (strL "add") lt)
  || (containsSub (strL "邀請了") lt || containsSub (strL "邀请了") lt
    || containsSub (strL "contacted") lt || containsSub (strL "聯繫了") lt
    || containsSub (strL "联系了") lt)
  || (seqTest (strL "已經") (strL "完成") t || containsSub (strL "已完成") t
    || seqTest (strL "已经") (strL "完成") t)
  || (seqTest (strL "狀態") (strL "變成") lt || containsSub (strL "改為") lt
    || containsSub (strL "changed") lt || seqTest (strL "状态") (strL "变成") lt
    || containsSub (strL "改为") lt)
  || (seqTest (strL "幫我") (strL "通知") t || seqTest (strL "帮我") (strL "通知") t)
  || (containsSub (strL "待辦") lt || containsSub (strL "待办") lt
    || containsSub (strL "todo") lt)

/-- `detectKnowledgeUpdateIntent_RuleBased(text)`. -/
def detectKnowledgeUpdateIntent_RuleBased (t : List Char) : Bool :=
  if queryPatternsTest t then false else updatePatternsTest t

/-- The provider loop of `callAI`: try each enabled provider outcome in
order, skipping thrown errors and empty results; throw when none yields a
non-empty text. -/
def callAI : List (Except Unit (List Char)) → Except Unit (List Char)
  | [] => .error ()
  | o :: rest =>
    match o with
    | .error _ => callAI rest
    | .ok s => if s.isEmpty then callAI rest else .ok s

/-- `detectKnowledgeUpdateIntent_LLM(text)`: `true` when the capability call
throws, otherwise whether the trimmed upper-cased answer includes `YES`. -/
def detectKnowledgeUpdateIntent_LLM
    (outcomes : List (Except Unit (List Char))) : Bool :=
  match callAI outcomes with
  | .error _ => true
  | .ok result => containsSub (strL "YES") ((jsTrim result).map Char.toUpper)

/-- `detectKnowledgeUpdateIntent(text)`: the hybrid pipeline, returning the
decision together with the number of confirming capability calls issued. -/
def detectKnowledgeUpdateIntent (outcomes : List (Except Unit (List Char)))
    (t : List Char) : Bool × Nat :=
  if detectKnowledgeUpdateIntent_RuleBased t = false then (false, 0)
  else (detectKnowledgeUpdateIntent_LLM outcomes, 1)

/-- `detectAdminCorrectionIntent(text)`. -/
def detectAdminCorrectionIntent (t : List Char) : Bool :=
  let lt := lowerL t
  (containsSub (strL "修正") lt || containsSub (strL "糾正") lt
    || containsSub (strL "correct") lt)
  || (containsSub (strL "目標是") t || containsSub (strL "目標為") t)
  || (containsSub (strL "應該是") t || containsSub (strL "應為") t)
  || (containsSub (strL "改成") t || containsSub (strL "改為") t)
  || seqTest (strL "不是") (strL "而是") t
  || containsSub (strL "更正") t

/-! Type/target extraction (`extractKnowledgeInfo` in the bot module). -/

/-- Character at a position. -/
def charAt (l : List Char) (i : Nat) : Option Char := (l.drop i).head?

/-- Scan for the leftmost case-insensitive match of an alternation of
literals, alternatives tried in order at each position; returns position and
length of the match. -/
def altScan (alts : List (List Char)) (lowText : List Char) (i : Nat) :
    List Char → Option (Nat × Nat)
  | [] => none
  | _ :: rest =>
    match alts.find? (fun a => (lowerL a).isPrefixOf (lowText.drop i)) with
    | some a => some (i, a.length)
    | none => altScan alts lowText (i + 1) rest

/-- `text.match(/A|B|.../i)?.[0]`: the original-case slice of the leftmost
match of a case-insensitive alternation of literals. -/
def firstAltMatch (alts : List (List Char)) (text : List Char) :
    Option (List Char) :=
  let low := lowerL text
  match altScan alts low 0 low with
  | some (i, len) => some ((text.drop i).take len)
  | none => none

/-- Match of a literal `b` after a possibly empty run of whitespace, i.e.
the `\s*b` tail of a JavaScript regular expression. -/
def wsStarThen (b : List Char) : List Char → Bool
  | [] => b.isPrefixOf ([] : List Char)
  | c :: r =>
    if b.isPrefixOf (c :: r) then true
    else if isWS c then wsStarThen b r else false

/-- Existence of a match of `a\s*b` (for literal fragments `a`, `b`). -/
def seqWsTest (a b : List Char) : List Char → Bool
  | [] => false
  | c :: rest =>
    (a.isPrefixOf (c :: rest) && wsStarThen b ((c :: rest).drop a.length))
      || seqWsTest a b rest

/-- The OEM alternation of `extractKnowledgeInfo`. -/
def oemAlts : List (List Char) :=
  [strL "ASUS", strL "Acer", strL "HP", strL "Dell", strL "Lenovo",
   strL "Gigabyte", strL "Mouse Computer", strL "OEM"]

/-- `/CES|展位|展會|trade\s*show/i.test(text)`. -/
def cesTest (t : List Char) : Bool :=
  let lt := lowerL t
  containsSub (strL "ces") lt || containsSub (strL "展位") lt
    || containsSub (strL "展會") lt || seqWsTest (strL "trade") (strL "show") lt

/-- `/邀請|contacted|聯繫|meeting|會議/i.test(text)`. -/
def contactTest (t : List Char) : Bool :=
  let lt := lowerL t
  containsSub (strL "邀請") lt || containsSub (strL "contacted") lt
    || containsSub (strL "聯繫") lt || containsSub (strL "meeting") lt
    || containsSub (strL "會議") lt

/-- A character excluded from the name capture group `[^,，。\n]`. -/
def nameExcl (c : Char) : Bool :=
  c = ',' || c = '，' || c = '。' || c = '\n'

/-- Length of the whitespace run of `l` starting at position `j`. -/
def wsRunLen (l : List Char) (j : Nat) : Nat :=
  ((l.drop j).takeWhile isWS).length

/-- Backtracking start of the capture group after `\s*` at position `j`
whose whitespace run ends at `w`: the largest start position in `[j, w]`
holding a character the group can consume (the greedy `\s*` gives back
whitespace characters other than the excluded newline). -/
def groupStart (text : List Char) (j w : Nat) : Option Nat :=
  match charAt text w with
  | some c =>
    if !nameExcl c then some w
    else ((List.range (w - j)).map (fun k => w - 1 - k)).find? fun s =>
      match charAt text s with
      | some c2 => !(c2 = '\n')
      | none => false
  | none =>
    ((List.range (w - j)).map (fun k => w - 1 - k)).find? fun s =>
      match charAt text s with
      | some c2 => !(c2 = '\n')
      | none => false

/-- The `\s*([^,，。\n]+)` tail of the name regular expression, starting at
position `j`; returns the captured group. -/
def nameGroupFrom (text : List Char) (j : Nat) : Option (List Char) :=
  let w := j + wsRunLen text j
  match groupStart text j w with
  | some s => some ((text.drop s).takeWhile (fun c => !nameExcl c))
  | none => none

/-- Leftmost match of `/(?:邀請了?|contacted)\s*([^,，。\n]+)/i`, returning
the captured group; alternatives and the optional `了` are tried in the
greedy backtracking order of the JavaScript engine. -/
def contactNameScan (text lowText : List Char) (i : Nat) :
    List Char → Option (List Char)
  | [] => none
  | _ :: rest =>
    let here :=
      if (strL "邀請").isPrefixOf (text.drop i) then
        match charAt text (i + 2) with
        | some c =>
          if c = '了' then
            match nameGroupFrom text (i + 3) with
            | some g => some g
            | none => nameGroupFrom text (i + 2)
          else nameGroupFrom text (i + 2)
        | none => nameGroupFrom text (i + 2)
      else if (strL "contacted").isPrefixOf (lowText.drop i) then
        nameGroupFrom text (i + 9)
      else none
    match here with
    | some g => some g
    | none => contactNameScan text lowText (i + 1) rest

/-- The name extraction `text.match(/(?:邀請了?|contacted)\s*([^,，。\n]+)/i)`. -/
def contactName (text : List Char) : Option (List Char) :=
  contactNameScan text (lowerL text) 0 text

/-- `extractKnowledgeInfo(text)`: coarse `(type, target)` classification by
three sequential pattern blocks, later blocks overriding earlier ones. -/
def extractKnowledgeInfo (text : List Char) : List Char × List Char :=
  let t0 := (strL "general", strL "Knowledge Update")
  let t1 :=
    match firstAltMatch oemAlts text with
    | some m => (strL "oem", m)
    | none => t0
  let t2 := if cesTest text then (strL "ces", strL "CES Update") else t1
  if contactTest text then
    (strL "contact",
      match contactName text with
      | some g => (jsTrim g).take 50
      | none => t2.2)
  else t2

/-! Document patcher. -/

/-- The `\n##` boundary needle of `archiveToKnowledgeBase`. -/
def nlHH : List Char := ['\n', '#', '#']

/-- The insertion step of `archiveToKnowledgeBase`: locate the section
marker; insert the entry at the next occurrence of `\n##` after it (or at
the end of the document); append at the end when the marker is absent. -/
def archiveInsertEntry (content marker entry : List Char) : List Char :=
  match jsIndexOfFrom content marker 0 with
  | some i =>
    let insertPos :=
      match jsIndexOfFrom content nlHH (i + marker.length) with
      | some j => j
      | none => content.length
    content.take insertPos ++ entry ++ content.drop insertPos
  | none => content ++ entry

/-- Match of `\d{4}-\d{2}-\d{2}` at the head of a character list. -/
def dateBodyMatch : List Char → Bool
  | a :: b :: c :: d :: e :: f :: g :: h :: i :: j :: _ =>
    a.isDigit && b.isDigit && c.isDigit && d.isDigit && e = '-'
      && f.isDigit && g.isDigit && h = '-' && i.isDigit && j.isDigit
  | _ => false

/-- The literal part of the last-updated marker. -/
def datePrefix : List Char := strL "> 最後更新："

/-- Replacement of the first match of `/> 最後更新：\d{4}-\d{2}-\d{2}/` by
the marker with the new timestamp (identity when there is no match). -/
def replaceDate (ts : List Char) : List Char → List Char
  | [] => []
  | c :: t =>
    if datePrefix.isPrefixOf (c :: t)
        && dateBodyMatch ((c :: t).drop datePrefix.length) then
      datePrefix ++ ts ++ (c :: t).drop (datePrefix.length + 10)
    else c :: replaceDate ts t

/-- The document transformation of `archiveToKnowledgeBase`: section-scoped
insertion followed by the last-updated marker substitution. -/
def archiveToKnowledgeBase (content marker entry ts : List Char) : List Char :=
  replaceDate ts (archiveInsertEntry content marker entry)

/-- Position of the next newline at or after `p`. -/
def nextNLFrom (l : List Char) (p : Nat) : Option Nat :=
  jsIndexOfFrom l ['\n'] p

/-- The slice of `l` between positions `a` (inclusive) and `b` (exclusive). -/
def seg (l : List Char) (a b : Nat) : List Char := (l.take b).drop a

/-- The status-line literal of the OEM regular expression (the source
escapes the asterisks, so they are literal characters). -/
def oemStatusLit : List Char := strL "**狀態**: "

/-- Whether the OEM regular expression
`(### .*target.*\n\*\*狀態\*\*: )([^\n]+)` matches starting at position `p`
of the (lowered) document. -/
def oemOkAt (lowDoc lowTarget : List Char) (p : Nat) : Bool :=
  (strL "### ").isPrefixOf (lowDoc.drop p) &&
  match nextNLFrom lowDoc p with
  | none => false
  | some e =>
    containsSub lowTarget (seg lowDoc (p + 4) e)
      && oemStatusLit.isPrefixOf (lowDoc.drop (e + 1))
      && (match lowDoc.drop (e + 1 + oemStatusLit.length) with
          | [] => false
          | c :: _ => !(c = '\n'))

/-- Leftmost match position of the OEM regular expression. -/
def oemFind (lowDoc lowTarget : List Char) (i : Nat) :
    List Char → Option Nat
  | [] => none
  | _ :: rest =>
    if oemOkAt lowDoc lowTarget i then some i
    else oemFind lowDoc lowTarget (i + 1) rest

/-- The `customers.md` rewrite of `applyUpdate` for `type = 'oem'`:
replace the status text of the first matching OEM section (the submitted
`target` is interpolated into the regular expression as a literal). -/
def oemApplyDoc (doc target value : List Char) : List Char × Bool :=
  let lowDoc := lowerL doc
  match oemFind lowDoc (lowerL target) 0 lowDoc with
  | none => (doc, false)
  | some p =>
    match nextNLFrom lowDoc p with
    | none => (doc, false)
    | some e =>
      let s := e + 1 + oemStatusLit.length
      let q := match nextNLFrom lowDoc s with
               | some q => q
               | none => doc.length
      (doc.take s ++ value ++ doc.drop q, true)

/-- Insertion of a table row before the `\n\n### 需要 Follow-up` anchor of
`pm-memory.md` (used by the `pending` and `contact` branches of
`applyUpdate`); the source requires the anchor position to be positive. -/
def insertBeforeFollowUp (pm row : List Char) : List Char × Bool :=
  match jsIndexOfFrom pm (strL "\n\n### 需要 Follow-up") 0 with
  | none => (pm, false)
  | some p => if p = 0 then (pm, false) else (pm.take p ++ row ++ pm.drop p, true)

/-- Zero-or-more whitespace characters followed by a literal `a`, i.e. the
`\s*a` tail of `/series\s*a/i`. -/
def seriesATest (t : List Char) : Bool :=
  seqWsTest (strL "series") (strL "a") (lowerL t)

/-- The title chosen by `applyAdminCorrection` from the correction text. -/
def adminCorrectionTitle (text : List Char) : List Char :=
  if seriesATest text then strL "Series A 目標更新"
  else if containsSub (strL "seed") (lowerL text) then strL "Seed Round 更新"
  else if containsSub (strL "目標") text then strL "目標更新"
  else strL "Admin 更新"

/-- The entry appended by `applyAdminCorrection`. -/
def adminCorrectionEntry (text today : List Char) : List Char :=
  strL "\n### " ++ adminCorrectionTitle text ++ strL " (" ++ today
    ++ strL ")\n- **來源**：Admin DM 糾正\n- **內容**：" ++ text ++ strL "\n"

/-- `applyAdminCorrection(text)` as a transformation of `pm-memory.md`:
insert the entry before the `\n---\n\n## ` separator following the
`## 🧠 決策脈絡` heading; the source requires both positions to be
positive. -/
def applyAdminCorrection (pm text today : List Char) : List Char × Bool :=
  match jsIndexOfFrom pm (strL "## 🧠 決策脈絡") 0 with
  | none => (pm, false)
  | some ds =>
    if ds = 0 then (pm, false)
    else
      match jsIndexOfFrom pm (strL "\n---\n\n## ") (ds + 1) with
      | none => (pm, false)
      | some ns =>
        if ns = 0 then (pm, false)
        else (pm.take ns ++ adminCorrectionEntry text today ++ pm.drop ns, true)

/-! Approval orchestrator: knowledge state, the direct-message handler and
the approval/rejection handlers as a step function on events. -/

/-- System state of the orchestrator: the `pending_updates` table, the two
knowledge documents the modelled `applyUpdate` branches touch, the number
of invocations of the direct correction writer `applyAdminCorrection`, the
reviewer notifications sent (`notifyAdminOfUpdate`), and the counter used
to model `generateUpdateId`. -/
structure BotState where
  updates : List UpdateRec
  pmMemory : List Char
  customers : List Char
  corrections : Nat
  notices : List (List Char)
  nextUid : Nat
deriving DecidableEq, Repr

/-- Freshly generated update id (the source draws a random 6-character
token; collisions are assumed not to occur). -/
def genId (n : Nat) : List Char := strL "U" ++ (toString n).toList

/-- `applyUpdate(update)`: apply an approved update to the knowledge
documents, returning the new state and the success flag; the
`admin_correction` branch invokes `applyAdminCorrection` (counted in
`corrections`), every other recognised type edits its target document and
an unrecognised type returns `false`. -/
def applyUpdate (st : BotState) (u : UpdateRec) (today : List Char) :
    BotState × Bool :=
  if u.type == strL "oem" then
    let r := oemApplyDoc st.customers u.target u.value
    ({ st with customers := r.1 }, r.2)
  else if u.type == strL "pending" then
    let row := strL "| " ++ u.target ++ strL " | " ++ u.value ++ strL " | "
      ++ today ++ strL " | - | KITT 提交 |\n"
    let r := insertBeforeFollowUp st.pmMemory row
    ({ st with pmMemory := r.1 }, r.2)
  else if u.type == strL "contact" then
    let vtrunc := u.value.take 50
      ++ (if 50 < u.value.length then strL "..." else [])
    let row := strL "| 邀請 " ++ u.target ++ strL " | KITT 提交 | " ++ today
      ++ strL " | 待確認 | " ++ vtrunc ++ strL " |\n"
    let r := insertBeforeFollowUp st.pmMemory row
    ({ st with pmMemory := r.1 }, r.2)
  else if u.type == strL "admin_correction" then
    let r := applyAdminCorrection st.pmMemory u.value today
    ({ st with pmMemory := r.1, corrections := st.corrections + 1 }, r.2)
  else (st, false)

/-- Creation of a pending update by the direct-message handler: append the
row and notify the reviewer. -/
def createAndNotify (st : BotState) (type target value user now : List Char)
    (source : List Char) : BotState :=
  let uid := genId st.nextUid
  { st with
    updates := st.updates ++ [createUpdate uid type target value user now (some source)],
    notices := st.notices ++ [uid],
    nextUid := st.nextUid + 1 }

/-- The direct-message branch of `app.event('message')`: non-admin
knowledge updates, admin corrections and admin knowledge updates are all
routed into the pending-updates queue; everything else takes the plain
conversational path (which touches only the conversation store, modelled
elsewhere). -/
def handleDM (st : BotState) (user text : List Char) (isAdmin : Bool)
    (llm : List (Except Unit (List Char))) (now : List Char) : BotState :=
  let isKU := (detectKnowledgeUpdateIntent llm text).1
  if !isAdmin && isKU then
    let ti := extractKnowledgeInfo text
    createAndNotify st ti.1 ti.2 text user now (strL "dm")
  else if isAdmin && detectAdminCorrectionIntent text then
    let ti := extractKnowledgeInfo text
    createAndNotify st (strL "admin_correction") ti.2 text user now (strL "admin_dm")
  else if isAdmin && isKU then
    let ti := extractKnowledgeInfo text
    createAndNotify st ti.1 ti.2 text user now (strL "admin_dm")
  else st

/-- The approve interactive-button handler
(`app.action(/approve_update_(.*)/)`): on a pending record, run
`applyUpdate` and mark the record approved in both outcomes (with an
explanatory note when the application failed). -/
def stepApproveButton (st : BotState) (aid today : List Char) : BotState :=
  match getUpdate st.updates aid with
  | none => st
  | some u =>
    if u.status ≠ strL "pending" then st
    else
      let r := applyUpdate st u today
      if r.2 then
        { r.1 with updates := (updateStatus r.1.updates aid (strL "approved") none today).1 }
      else
        { r.1 with updates :=
            (updateStatus r.1.updates aid (strL "approved")
              (some (strL "Auto-apply not supported for this type")) today).1 }

/-- The `/kitt approve` slash-command handler: on a pending record, run
`applyUpdate` and mark the record approved only when the application
succeeded. -/
def stepApproveCommand (st : BotState) (aid today : List Char) : BotState :=
  match getUpdate st.updates aid with
  | none => st
  | some u =>
    if u.status ≠ strL "pending" then st
    else
      let r := applyUpdate st u today
      if r.2 then
        { r.1 with updates := (updateStatus r.1.updates aid (strL "approved") none today).1 }
      else r.1

/-- The reject handler: flip a pending record to `rejected`. -/
def stepReject (st : BotState) (aid today : List Char) : BotState :=
  { st with updates := (updateStatus st.updates aid (strL "rejected") none today).1 }

/-- The inbound events of the orchestrator. -/
inductive BotEvent where
  | dm (user text : List Char) (isAdmin : Bool)
      (llm : List (Except Unit (List Char))) (now : List Char)
  | approveButton (aid today : List Char)
  | approveCommand (aid today : List Char)
  | reject (aid today : List Char)

/-- The event-handling step relation of the orchestrator. -/
def stepBot (e : BotEvent) (st : BotState) : BotState :=
  match e with
  | .dm user text isAdmin llm now => handleDM st user text isAdmin llm now
  | .approveButton aid today => stepApproveButton st aid today
  | .approveCommand aid today => stepApproveCommand st aid today
  | .reject aid today => stepReject st aid today

/-! Concrete inputs used by witnesses and counterexamples. -/

/-- A document whose marked section contains a deeper `###` subsection and
no further top-level `## ` section. -/
def c4doc : List Char := strL "## Section\nA\n### Sub\nB"

/-- The section marker of the example document. -/
def c4marker : List Char := strL "## Section"

/-- The entry inserted into the example document. -/
def c4entry : List Char := strL "\nNEW"

/-- A second document with a following top-level section. -/
def c4doc2 : List Char := strL "## Section\nA\n## Next\nB"

/-- An already-reviewed memory candidate. -/
def demoCand : Candidate :=
  { id := strL "CAND1", source := strL "slack-thread", channel := none,
    channelName := none, threadTs := none, threadUrl := none,
    rawMessages := [], extractedMemories := [],
    submittedBy := strL "U0", submittedAt := strL "T0",
    status := strL "approved", reviewedBy := some (strL "U1"),
    reviewedAt := some (strL "T1"), notes := none }

/-- A memory store holding the already-reviewed candidate. -/
def demoMemState : MemState := { cands := [demoCand], memories := [], nextMemId := 0 }

/-- The empty memory store. -/
def emptyMemState : MemState := { cands := [], memories := [], nextMemId := 0 }

/-- A pending update of type `general`, for which `applyUpdate` has no
branch and therefore fails. -/
def c3rec : UpdateRec :=
  createUpdate (strL "AAAAAA") (strL "general") (strL "Knowledge Update")
    (strL "hello team") (strL "U7") (strL "2026-01-01") (some (strL "dm"))

/-- Orchestrator state holding the single pending `general` update. -/
def c3state : BotState :=
  { updates := [c3rec], pmMemory := [], customers := [], corrections := 0,
    notices := [], nextUid := 0 }

/-- The empty orchestrator state. -/
def botInit : BotState :=
  { updates := [], pmMemory := [], customers := [], corrections := 0,
    notices := [], nextUid := 0 }

/-- A pending update row for the double-transition witness. -/
def c1rec : UpdateRec :=
  createUpdate (strL "B2") (strL "ces") (strL "CES Update") (strL "booth ok")
    (strL "U1") (strL "T0") none

/-- A one-row `pending_updates` table. -/
def c1rows : List UpdateRec := [c1rec]

/-- The English query text of the specification fixture (the apostrophe is
written by code point). -/
def cesQText : List Char :=
  strL "what" ++ [Char.ofNat 39] ++ strL "s our CES status?"

/-- A remember-me text passing the rule-based update filter. -/
def rememberText : List Char := strL "記住"

/-- An admin correction message. -/
def corrText : List Char := strL "應該是 500 萬"

/-! Supporting lemmas. -/

/-- A found occurrence ends within the haystack. -/
theorem firstOccur_bound {n : List Char} :
    ∀ {h : List Char} {p : Nat}, firstOccur n h = some p →
      p + n.length ≤ h.length := by
  intro h
  induction h with
  | nil =>
    intro p hp
    unfold firstOccur at hp
    by_cases hn : n.isEmpty
    · rw [if_pos hn] at hp
      cases hp
      simp [List.isEmpty_iff.mp hn]
    · rw [if_neg hn] at hp
      cases hp
  | cons c t ih =>
    intro p hp
    unfold firstOccur at hp
    by_cases hpre : n.isPrefixOf (c :: t)
    · rw [if_pos hpre] at hp
      cases hp
      have := (List.isPrefixOf_iff_prefix.mp hpre).length_le
      simpa using this
    · rw [if_neg hpre] at hp
      cases hq : firstOccur n t with
      | none => rw [hq] at hp; cases hp
      | some q =>
        rw [hq] at hp
        cases hp
        have := ih hq
        simp only [List.length_cons]
        omega

/-- A found occurrence lies at or after the start position. -/
theorem jsIndexOfFrom_ge_start {hay n : List Char} {s p : Nat}
    (h : jsIndexOfFrom hay n s = some p) : s ≤ p := by
  unfold jsIndexOfFrom at h
  cases hq : firstOccur n (hay.drop s) with
  | none => rw [hq] at h; cases h
  | some q =>
    rw [hq] at h
    have hp : q + s = p := by simpa using h
    omega

/-- A found occurrence ends within the haystack, provided the start
position is in range. -/
theorem jsIndexOfFrom_bound {hay n : List Char} {s p : Nat}
    (h : jsIndexOfFrom hay n s = some p) (hs : s ≤ hay.length) :
    p + n.length ≤ hay.length := by
  unfold jsIndexOfFrom at h
  cases hq : firstOccur n (hay.drop s) with
  | none => rw [hq] at h; cases h
  | some q =>
    rw [hq] at h
    have hp : q + s = p := by simpa using h
    have hb := firstOccur_bound hq
    rw [List.length_drop] at hb
    omega

/-- Elements kept by `filterMems` passed the keep predicate. -/
theorem filterMems_sound :
    ∀ {items kept : List JsValue}, filterMems items = .ok kept →
      ∀ m ∈ kept, memKeep m = .ok true := by
  intro items
  induction items with
  | nil =>
    intro kept hk m hm
    unfold filterMems at hk
    cases hk
    cases hm
  | cons x rest ih =>
    intro kept hk m hm
    unfold filterMems at hk
    cases hx : memKeep x with
    | error e => rw [hx] at hk; cases hk
    | ok keep =>
      rw [hx] at hk
      cases hr : filterMems rest with
      | error e => rw [hr] at hk; cases hk
      | ok tail =>
        rw [hr] at hk
        cases hk
        by_cases hkeep : keep = true
        · subst hkeep
          simp only [if_pos] at hm
        
          rcases List.mem_cons.mp hm with hm1 | hm2
          · subst hm1; exact hx
          · exact ih hr m hm2
        · have : keep = false := by simpa using hkeep
          subst this
          simp only [Bool.false_eq_true, if_false] at hm
          exact ih hr m hm

/-- A kept element has truthy `type` and `content` fields. -/
theorem memKeep_true {m : JsValue} (h : memKeep m = .ok true) :
    ∃ tv cv, getProp m (strL "type") = .ok tv ∧ tv.truthy = true
      ∧ getProp m (strL "content") = .ok cv ∧ cv.truthy = true := by
  unfold memKeep at h
  split at h
  · exact absurd h (by simp)
  · rename_i tv heq
    split at h
    · exact absurd h (by simp)
    · rename_i htv
      split at h
      · exact absurd h (by simp)
      · rename_i cv heq2
        have hcv : cv.truthy = true := by
          have h2 : (!!cv.truthy) = true := by simpa using h
          simpa using h2
        have htv2 : tv.truthy = true := by simpa using htv
        exact ⟨tv, cv, heq, htv2, heq2, hcv⟩

/-- C7: the response parser of the thread extractor never throws: it works
on the fence-stripped trimmed input, returns the empty list when the
top-level parse fails or does not yield an array, and every item of the
returned list has truthy `type` and `content` fields. -/
theorem parseAIResponse_defensive (jsonParse : List Char → Option JsValue)
    (response : List Char) :
    (jsonParse (jsTrim (stripFences (jsTrim response))) = none →
      parseAIResponse jsonParse response = [])
    ∧ (∀ v, jsonParse (jsTrim (stripFences (jsTrim response))) = some v →
        (∀ items, v ≠ JsValue.arr items) →
          parseAIResponse jsonParse response = [])
    ∧ (∀ m ∈ parseAIResponse jsonParse response,
        ∃ tv cv, getProp m (strL "type") = .ok tv ∧ tv.truthy = true
          ∧ getProp m (strL "content") = .ok cv ∧ cv.truthy = true) := by
  refine ⟨?_, ?_, ?_⟩
  · intro h
    simp only [parseAIResponse]
    rw [h]
  · intro v h hv
    simp only [parseAIResponse]
    rw [h]
    cases v with
    | arr items => exact absurd rfl (hv items)
    | null => rfl
    | undefined => rfl
    | bool b => rfl
    | num n => rfl
    | str s => rfl
    | obj fields => rfl
  · intro m hm
    simp only [parseAIResponse] at hm
    cases hp : jsonParse (jsTrim (stripFences (jsTrim response))) with
    | none => rw [hp] at hm; cases hm
    | some v =>
      rw [hp] at hm
      cases v with
      | arr items =>
        have hm2 : m ∈ (match filterMems items with
            | Except.error _ => ([] : List JsValue)
            | Except.ok kept => kept) := hm
        cases hf : filterMems items with
        | error e => rw [hf] at hm2; cases hm2
        | ok kept =>
          rw [hf] at hm2
          exact memKeep_true (filterMems_sound hf m hm2)
      | null => cases hm
      | undefined => cases hm
      | bool b => cases hm
      | num n => cases hm
      | str s => cases hm
      | obj fields => cases hm

/-- C7 witness: a parse failure yields the empty list. -/
theorem parseAIResponse_defensive_witness :
    parseAIResponse (fun _ => none) [] = [] :=
  (parseAIResponse_defensive (fun _ => none) []).1 rfl

/-- C8: after `addMessage`, every surviving turn of the writing user
(including the newly inserted one) carries `expires_at =
now + CONVERSATION_TIMEOUT_MS`; in particular no turn of that user expires
earlier than the most recently inserted turn. -/
theorem addMessage_expiry_invariant (st : MsgStore)
    (u role content : List Char) (now : Nat) :
    (∀ m ∈ (addMessage st u role content now).rows, m.userId = u →
      m.expiresAt = now + CONVERSATION_TIMEOUT_MS)
    ∧ (∀ m ∈ (addMessage st u role content now).rows, m.userId = u →
      ¬(m.expiresAt < now + CONVERSATION_TIMEOUT_MS)) := by
  have key : ∀ m ∈ (addMessage st u role content now).rows, m.userId = u →
      m.expiresAt = now + CONVERSATION_TIMEOUT_MS := by
    intro m hm hmu
    unfold addMessage at hm
    simp only [] at hm
    have hm2 := (List.mem_filter.mp hm).1
    rcases List.mem_map.mp hm2 with ⟨x, hx, hfx⟩
    by_cases hxu : (x.userId == u) = true
    · rw [if_pos hxu] at hfx
      rw [← hfx]
    · rw [if_neg hxu] at hfx
      subst hfx
      exact absurd (beq_iff_eq.mpr hmu) hxu
  exact ⟨key, fun m hm hmu => by rw [key m hm hmu]; omega⟩

/-- C9: a text matching any query pattern is classified as not an update
with no confirming capability call, whatever the capability would answer. -/
theorem classify_query_short_circuit (t : List Char)
    (outcomes : List (Except Unit (List Char)))
    (h : queryPatternsTest t = true) :
    detectKnowledgeUpdateIntent outcomes t = (false, 0) := by
  have hrb : detectKnowledgeUpdateIntent_RuleBased t = false := by
    simp [detectKnowledgeUpdateIntent_RuleBased, h]
  simp [detectKnowledgeUpdateIntent, hrb]

/-- C9 witness: the specification fixture is a query (it contains a
question mark), so classification is `false` with zero capability calls
even when the capability would answer YES. -/
theorem classify_query_short_circuit_witness :
    queryPatternsTest cesQText = true
    ∧ detectKnowledgeUpdateIntent [Except.ok (strL "YES")] cesQText
        = (false, 0) :=
  ⟨by decide, classify_query_short_circuit cesQText _ (by decide)⟩

/-- C6 (amended): for a text passing the rule-based stage, a confirming
capability call that throws — every provider failing with a network,
timeout or HTTP error, a non-JSON body, or an empty extracted text — makes
the classifier return true; a provider response that is delivered as a
non-empty string but is malformed (it does not contain YES) instead makes
the classifier return false. -/
theorem classify_fallback_on_throw (t : List Char)
    (outcomes : List (Except Unit (List Char)))
    (h1 : detectKnowledgeUpdateIntent_RuleBased t = true)
    (h2 : callAI outcomes = .error ()) :
    detectKnowledgeUpdateIntent outcomes t = (true, 1) := by
  unfold detectKnowledgeUpdateIntent
  rw [h1]
  simp [detectKnowledgeUpdateIntent_LLM, h2]

/-- C6 witness: with every provider throwing or returning an empty text,
the unified call throws and a rule-passing text is classified true. -/
theorem classify_fallback_on_throw_witness :
    detectKnowledgeUpdateIntent [Except.error (), Except.ok []] rememberText
      = (true, 1) :=
  classify_fallback_on_throw rememberText [Except.error (), Except.ok []]
    (by decide) rfl

/-- C6 counterexample: a malformed non-empty capability response (here
MAYBE, outside the YES/NO protocol) is not treated as a failure: the
classifier returns false for a text that passed the rule-based stage,
contradicting the claim that every malformed response falls back to true. -/
theorem classify_malformed_response_false :
    detectKnowledgeUpdateIntent_RuleBased rememberText = true
    ∧ detectKnowledgeUpdateIntent [Except.ok (strL "MAYBE")] rememberText
        = (false, 1) := by
  constructor
  · decide
  · decide

/-- C10: `approveCandidate` on a missing or already-processed candidate
returns null and leaves the whole memory store (the candidate rows and the
memories table) unchanged. -/
theorem approveCandidate_noop (st : MemState) (cid a t : List Char)
    (sel : Option (List MemItem))
    (h : ∀ c, getCandidate st.cands cid = some c → c.status ≠ strL "pending") :
    approveCandidate st cid a t sel = (st, none) := by
  unfold approveCandidate
  cases hg : getCandidate st.cands cid with
  | none => rfl
  | some cand =>
    have hs := h cand hg
    show (if cand.status ≠ strL "pending" then ((st, none) : MemState × Option (List Nat))
      else _) = (st, none)
    rw [if_pos hs]

/-- C10 witness: approving a candidate absent from the store is a no-op. -/
theorem approveCandidate_noop_witness :
    approveCandidate emptyMemState (strL "CANDX") (strL "U9") (strL "T9") none
      = (emptyMemState, none) :=
  approveCandidate_noop emptyMemState (strL "CANDX") (strL "U9") (strL "T9")
    none (fun c hc => by simp [getCandidate, emptyMemState] at hc)

/-- C3: on the failing input — a pending update of a type `applyUpdate`
cannot apply — the interactive-button approval marks the record approved
with a partial-success note, but the slash-command approval leaves the
record in status pending (despite replying that it was approved), so the
two paths diverge and the claimed always-approved outcome fails on the
slash-command path. -/
theorem approve_paths_divergence :
    ((stepApproveCommand c3state (strL "AAAAAA") (strL "2026-01-02")).updates.map
        (fun r => (r.status, r.processedAt)))
      = [(strL "pending", none)]
    ∧ ((stepApproveButton c3state (strL "AAAAAA") (strL "2026-01-02")).updates.map
        (fun r => (r.status, r.processedAt, r.note)))
      = [(strL "approved", some (strL "2026-01-02"),
          some (strL "Auto-apply not supported for this type"))] := by
  constructor
  · decide
  · decide

/-- A filter rejecting every element returns the empty list. -/
theorem filter_nil_of_all {α : Type} (p : α → Bool) :
    ∀ l : List α, (∀ a ∈ l, p a = false) → l.filter p = [] := by
  intro l h
  induction l with
  | nil => rfl
  | cons a t ih =>
    rw [List.filter_cons, h a (List.mem_cons_self a t)]
    simp only [Bool.false_eq_true, if_false]
    exact ih fun b hb => h b (List.mem_cons_of_mem a hb)

/-- Under primary-key uniqueness, equal ids force equal rows. -/
theorem mem_unique_id :
    ∀ {rows : List UpdateRec}, uniqueIds rows →
      ∀ {a b : UpdateRec}, a ∈ rows → b ∈ rows → a.id = b.id → a = b := by
  intro rows
  induction rows with
  | nil =>
    intro _ a b ha
    cases ha
  | cons x t ih =>
    intro hu a b ha hb hab
    have hx := (List.pairwise_cons.mp hu).1
    have ht := (List.pairwise_cons.mp hu).2
    rcases List.mem_cons.mp ha with h1 | h1 <;>
      rcases List.mem_cons.mp hb with h2 | h2
    · rw [h1, h2]
    · rw [h1] at hab
      exact absurd hab (hx b h2)
    · rw [h2] at hab
      exact absurd hab.symm (hx a h1)
    · exact ih ht h1 h2 hab

/-- Under primary-key uniqueness, the conditional-write predicate of
`updateStatus` selects exactly the one pending row with the given id. -/
theorem filter_hit_singleton :
    ∀ {rows : List UpdateRec} {r : UpdateRec} {i : List Char},
      uniqueIds rows → r ∈ rows → r.id = i → r.status = strL "pending" →
        rows.filter (fun x => x.id == i && x.status == strL "pending") = [r] := by
  intro rows
  induction rows with
  | nil =>
    intro r i _ hr
    cases hr
  | cons x t ih =>
    intro r i hu hr hid hp
    have hx := (List.pairwise_cons.mp hu).1
    have ht := (List.pairwise_cons.mp hu).2
    rcases List.mem_cons.mp hr with h1 | h1
    · subst h1
      rw [List.filter_cons]
      rw [show (r.id == i && r.status == strL "pending") = true by
        simp [beq_iff_eq, hid, hp]]
      simp only [if_true]
      rw [filter_nil_of_all _ t fun b hb => by
        have : r.id ≠ b.id := hx b hb
        simp [beq_iff_eq]
        intro hbi
        exact absurd (hbi.trans hid.symm).symm this]
    · rw [List.filter_cons]
      rw [show (x.id == i && x.status == strL "pending") = false by
        have : x.id ≠ r.id := hx r h1
        simp [beq_iff_eq]
        intro hxi
        exact absurd (hxi.trans hid.symm) this]
      simp only [Bool.false_eq_true, if_false]
      exact ih ht h1 hid hp

/-- The conditional write is a no-op (table unchanged, zero changes) when
no row matches the id with status pending. -/
theorem updateStatus_noop (rows : List UpdateRec) (i s : List Char)
    (nn : Option (List Char)) (t : List Char)
    (h : ∀ r ∈ rows, ¬(r.id = i ∧ r.status = strL "pending")) :
    updateStatus rows i s nn t = (rows, 0) := by
  have hhit : ∀ r ∈ rows,
      (r.id == i && r.status == strL "pending") = false := by
    intro r hr
    have hnr := h r hr
    by_cases h1 : r.id = i
    · by_cases h2 : r.status = strL "pending"
      · exact absurd ⟨h1, h2⟩ hnr
      · simp [beq_iff_eq, h2]
    · simp [beq_iff_eq, h1]
  simp only [updateStatus]
  have hmap : (rows.map fun r =>
      if r.id == i && r.status == strL "pending" then
        { r with status := s, processedAt := some t,
                 note := match nn with | some n => some n | none => r.note }
      else r) = rows := by
    calc (rows.map fun r =>
        if r.id == i && r.status == strL "pending" then
          { r with status := s, processedAt := some t,
                   note := match nn with | some n => some n | none => r.note }
        else r)
        = rows.map id := List.map_congr_left fun r hr => by
          rw [hhit r hr]
          simp
      _ = rows := List.map_id rows
  rw [hmap, filter_nil_of_all _ rows hhit]
  rfl

/-- C1: `updateStatus` is a no-op, not an error, on a missing or
already-processed record (last conjunct); and being a single conditional
write, two transitions of a pending record to approved give exactly one
success (`changes = 1`) and one no-op (`changes = 0`, table unchanged),
leaving the record approved with the first transition's `processed_at`. -/
theorem updateStatus_double_approval
    (rows : List UpdateRec) (i : List Char) (r : UpdateRec)
    (n1 n2 : Option (List Char)) (t1 t2 : List Char)
    (hu : uniqueIds rows) (hr : r ∈ rows) (hid : r.id = i)
    (hp : r.status = strL "pending") :
    (updateStatus rows i (strL "approved") n1 t1).2 = 1
    ∧ (updateStatus (updateStatus rows i (strL "approved") n1 t1).1 i
        (strL "approved") n2 t2).2 = 0
    ∧ (updateStatus (updateStatus rows i (strL "approved") n1 t1).1 i
        (strL "approved") n2 t2).1
        = (updateStatus rows i (strL "approved") n1 t1).1
    ∧ (∀ r2 ∈ (updateStatus rows i (strL "approved") n1 t1).1, r2.id = i →
        r2.status = strL "approved" ∧ r2.processedAt = some t1)
    ∧ (∀ rows2 i2 st2 nn tt,
        (∀ r2 ∈ rows2, ¬(r2.id = i2 ∧ r2.status = strL "pending")) →
          updateStatus rows2 i2 st2 nn tt = (rows2, 0)) := by
  have hfil := filter_hit_singleton hu hr hid hp
  have hone : (updateStatus rows i (strL "approved") n1 t1).2 = 1 := by
    simp only [updateStatus]
    rw [hfil]
    rfl
  have hrows1 : ∀ r2 ∈ (updateStatus rows i (strL "approved") n1 t1).1,
      r2.id = i → r2.status = strL "approved" ∧ r2.processedAt = some t1 := by
    intro r2 hm hr2i
    simp only [updateStatus] at hm
    rcases List.mem_map.mp hm with ⟨x, hx, hfx⟩
    by_cases hhx : (x.id == i && x.status == strL "pending") = true
    · rw [if_pos hhx] at hfx
      rw [← hfx]
      exact ⟨rfl, rfl⟩
    · rw [if_neg hhx] at hfx
      have hxr : x = r := mem_unique_id hu hx hr (by rw [hfx]; exact hr2i.trans hid.symm)
      exact absurd (by rw [hxr]; simp [beq_iff_eq, hid, hp]) hhx
  have hnohit : ∀ r2 ∈ (updateStatus rows i (strL "approved") n1 t1).1,
      ¬(r2.id = i ∧ r2.status = strL "pending") := by
    rintro r2 hm ⟨h1, h2⟩
    have := (hrows1 r2 hm h1).1
    rw [this] at h2
    exact absurd h2 (by decide)
  have hno := updateStatus_noop (updateStatus rows i (strL "approved") n1 t1).1
    i (strL "approved") n2 t2 hnohit
  refine ⟨hone, ?_, ?_, hrows1, fun rows2 i2 st2 nn tt h => updateStatus_noop rows2 i2 st2 nn tt h⟩
  · rw [hno]
  · rw [hno]

/-- C1 witness: transitioning the concrete pending record B2 twice gives
one success and one no-op. -/
theorem updateStatus_double_approval_witness :
    (updateStatus c1rows (strL "B2") (strL "approved") none (strL "T1")).2 = 1
    ∧ (updateStatus (updateStatus c1rows (strL "B2") (strL "approved") none
        (strL "T1")).1 (strL "B2") (strL "approved") none (strL "T2")).2 = 0 :=
  ⟨(updateStatus_double_approval c1rows (strL "B2") c1rec none none
      (strL "T1") (strL "T2") (by simp [uniqueIds, c1rows]) (by simp [c1rows])
      (by decide) (by decide)).1,
   (updateStatus_double_approval c1rows (strL "B2") c1rec none none
      (strL "T1") (strL "T2") (by simp [uniqueIds, c1rows]) (by simp [c1rows])
      (by decide) (by decide)).2.1⟩

/-- C2 counterexample: `rejectCandidate` on the candidate CAND1 whose
status is already `approved` (reviewed by U1 at T1) overwrites status,
reviewed_by and reviewed_at, contradicting the claimed at-most-one
transition away from pending for the MemoryCandidate family. -/
theorem rejectCandidate_overwrites_reviewed :
    ((getCandidate (rejectCandidate demoMemState (strL "CAND1") (strL "U2")
        (strL "T2") none).1.cands (strL "CAND1")).map
        fun c => (c.status, c.reviewedBy, c.reviewedAt))
      = some (strL "rejected", some (strL "U2"), some (strL "T2"))
    ∧ demoCand.status = strL "approved"
    ∧ demoCand.reviewedBy = some (strL "U1")
    ∧ demoCand.reviewedAt = some (strL "T1") := by
  refine ⟨by decide, by decide, by decide, by decide⟩

/-- C2 (amended): for the MemoryCandidate family, `approveCandidate` on a
non-pending candidate is a pure no-op returning null, but `rejectCandidate`
is unconditional — whatever the candidate's current status, it overwrites
status to `rejected` and replaces reviewed_by, reviewed_at and notes. -/
theorem candidate_transition_amended
    (st : MemState) (cid actor now : List Char) (notes : Option (List Char))
    (c : Candidate) (hc : getCandidate st.cands cid = some c) :
    (c.status ≠ strL "pending" →
      ∀ a t sel, approveCandidate st cid a t sel = (st, none))
    ∧ (∀ c2 ∈ (rejectCandidate st cid actor now notes).1.cands, c2.id = c.id →
        c2.status = strL "rejected" ∧ c2.reviewedBy = some actor
          ∧ c2.reviewedAt = some now ∧ c2.notes = notes) := by
  have hc2 : st.cands.find? (fun x => x.id == cid) = some c := hc
  have hcid : c.id = cid := by
    have hpa := List.find?_some hc2
    simpa using hpa
  constructor
  · intro hs a t sel
    unfold approveCandidate
    rw [hc]
    show (if c.status ≠ strL "pending" then
        ((st, none) : MemState × Option (List Nat)) else _) = (st, none)
    rw [if_pos hs]
  · intro c2 hm hid2
    simp only [rejectCandidate] at hm
    rcases List.mem_map.mp hm with ⟨x, hx, hfx⟩
    by_cases hxc : (x.id == cid) = true
    · rw [if_pos hxc] at hfx
      rw [← hfx]
      exact ⟨rfl, rfl, rfl, rfl⟩
    · rw [if_neg hxc] at hfx
      rw [← hfx] at hid2
      exact absurd (beq_iff_eq.mpr (hid2.trans hcid)) hxc

/-- C2 witness: approving the already-approved candidate CAND1 is a pure
no-op returning null. -/
theorem candidate_transition_amended_witness :
    approveCandidate demoMemState (strL "CAND1") (strL "UX") (strL "TX") none
      = (demoMemState, none) :=
  (candidate_transition_amended demoMemState (strL "CAND1") (strL "U2")
      (strL "T2") none demoCand (by decide)).1 (by decide)
    (strL "UX") (strL "TX") none

/-- C4 counterexample: in a document where the marked section is followed
by a `###` subsection and by no further top-level `## ` section, the claim
requires the entry to be appended at the end of the document, but the code
inserts it before the subsection (the code boundary is the next `\n##`
occurrence, which also matches deeper headings). -/
theorem archiveInsertEntry_counterexample :
    jsIndexOfFrom c4doc c4marker 0 = some 0
    ∧ jsIndexOfFrom c4doc (strL "\n## ") (0 + c4marker.length) = none
    ∧ archiveInsertEntry c4doc c4marker c4entry
        = strL "## Section\nA" ++ c4entry ++ strL "\n### Sub\nB"
    ∧ archiveInsertEntry c4doc c4marker c4entry ≠ c4doc ++ c4entry := by
  refine ⟨by decide, by decide, by decide, by decide⟩

/-- C4 (amended): when the section marker occurs (first occurrence `i`),
the entry is inserted at the next occurrence of newline-`##` after the
marker — the start of the next heading of level at least two, not
necessarily a top-level section — or at end-of-document when there is no
such occurrence; when the marker is absent the entry is appended at the
end; apart from this insertion (and the subsequent last-updated marker
substitution) the document is byte-identical. -/
theorem archiveInsertEntry_characterization (content marker entry : List Char) :
    (jsIndexOfFrom content marker 0 = none →
      archiveInsertEntry content marker entry = content ++ entry)
    ∧ (∀ i, jsIndexOfFrom content marker 0 = some i →
        ∃ p, i + marker.length ≤ p ∧ p ≤ content.length
          ∧ archiveInsertEntry content marker entry
            = content.take p ++ entry ++ content.drop p
          ∧ (jsIndexOfFrom content nlHH (i + marker.length) = some p
            ∨ (jsIndexOfFrom content nlHH (i + marker.length) = none
              ∧ p = content.length)))
    ∧ (∀ ts, archiveToKnowledgeBase content marker entry ts
        = replaceDate ts (archiveInsertEntry content marker entry)) := by
  refine ⟨?_, ?_, fun ts => rfl⟩
  · intro h
    simp only [archiveInsertEntry, h]
  · intro i hi
    have hi0 : i + marker.length ≤ content.length := by
      have h0 : (0 : Nat) ≤ content.length := Nat.zero_le _
      exact jsIndexOfFrom_bound hi h0
    cases hj : jsIndexOfFrom content nlHH (i + marker.length) with
    | some j =>
      refine ⟨j, jsIndexOfFrom_ge_start hj, ?_, ?_, Or.inl rfl⟩
      · have h3 := jsIndexOfFrom_bound hj hi0
        have hlen : nlHH.length = 3 := rfl
        omega
      · simp only [archiveInsertEntry, hi, hj]
    | none =>
      refine ⟨content.length, hi0, le_refl _, ?_, Or.inr ⟨rfl, rfl⟩⟩
      simp only [archiveInsertEntry, hi, hj]

/-- C4 witness: in a document with a following top-level section, the entry
is inserted at the `\n##` boundary after the marker. -/
theorem archiveInsertEntry_characterization_witness :
    ∃ p, 0 + c4marker.length ≤ p ∧ p ≤ c4doc2.length
      ∧ archiveInsertEntry c4doc2 c4marker c4entry
        = c4doc2.take p ++ c4entry ++ c4doc2.drop p
      ∧ (jsIndexOfFrom c4doc2 nlHH (0 + c4marker.length) = some p
        ∨ (jsIndexOfFrom c4doc2 nlHH (0 + c4marker.length) = none
          ∧ p = c4doc2.length)) :=
  (archiveInsertEntry_characterization c4doc2 c4marker c4entry).2.1 0 (by decide)

/-- Only the `admin_correction` branch of `applyUpdate` can change the
count of direct-correction invocations. -/
theorem applyUpdate_corrections_change (st : BotState) (u : UpdateRec)
    (today : List Char)
    (h : (applyUpdate st u today).1.corrections ≠ st.corrections) :
    u.type = strL "admin_correction" := by
  simp only [applyUpdate] at h
  by_cases h1 : (u.type == strL "oem") = true
  · rw [if_pos h1] at h
    simp at h
  · rw [if_neg h1] at h
    by_cases h2 : (u.type == strL "pending") = true
    · rw [if_pos h2] at h
      simp at h
    · rw [if_neg h2] at h
      by_cases h3 : (u.type == strL "contact") = true
      · rw [if_pos h3] at h
        simp at h
      · rw [if_neg h3] at h
        by_cases h4 : (u.type == strL "admin_correction") = true
        · exact beq_iff_eq.mp h4
        · rw [if_neg h4] at h
          simp at h

/-- C5: handling any direct message leaves the knowledge documents and the
correction count untouched; an administrator message matching the
correction detector only creates one pending `admin_correction` Update and
notifies the reviewer; and a step changes the correction count — runs
`applyAdminCorrection` — only when it is an approval event whose id refers
to a pending `admin_correction` record of the current state. -/
theorem admin_correction_gated (st : BotState) :
    (∀ user text isAdmin llm now,
      (stepBot (.dm user text isAdmin llm now) st).pmMemory = st.pmMemory
      ∧ (stepBot (.dm user text isAdmin llm now) st).customers = st.customers
      ∧ (stepBot (.dm user text isAdmin llm now) st).corrections
          = st.corrections)
    ∧ (∀ user text llm now, detectAdminCorrectionIntent text = true →
        stepBot (.dm user text true llm now) st
          = createAndNotify st (strL "admin_correction")
              (extractKnowledgeInfo text).2 text user now (strL "admin_dm")
        ∧ (stepBot (.dm user text true llm now) st).updates
          = st.updates ++ [createUpdate (genId st.nextUid)
              (strL "admin_correction") (extractKnowledgeInfo text).2 text
              user now (some (strL "admin_dm"))]
        ∧ (stepBot (.dm user text true llm now) st).notices
          = st.notices ++ [genId st.nextUid])
    ∧ (∀ e, (stepBot e st).corrections ≠ st.corrections →
        ∃ aid today,
          (e = .approveButton aid today ∨ e = .approveCommand aid today)
          ∧ ∃ u, getUpdate st.updates aid = some u
              ∧ u.status = strL "pending"
              ∧ u.type = strL "admin_correction") := by
  have hdm : ∀ user text isAdmin llm now,
      (handleDM st user text isAdmin llm now).pmMemory = st.pmMemory
      ∧ (handleDM st user text isAdmin llm now).customers = st.customers
      ∧ (handleDM st user text isAdmin llm now).corrections = st.corrections := by
    intro user text isAdmin llm now
    simp only [handleDM]
    split_ifs <;> simp [createAndNotify]
  refine ⟨hdm, ?_, ?_⟩
  · intro user text llm now hdet
    have hstep : stepBot (.dm user text true llm now) st
        = createAndNotify st (strL "admin_correction")
            (extractKnowledgeInfo text).2 text user now (strL "admin_dm") := by
      show handleDM st user text true llm now = _
      simp only [handleDM, Bool.not_true, Bool.false_and, Bool.true_and,
        Bool.false_eq_true, if_false, hdet, if_true]
    exact ⟨hstep, by rw [hstep]; rfl, by rw [hstep]; rfl⟩
  · intro e he
    cases e with
    | dm user text isAdmin llm now =>
      exact absurd (hdm user text isAdmin llm now).2.2 he
    | reject aid today =>
      exact absurd rfl he
    | approveButton aid today =>
      refine ⟨aid, today, Or.inl rfl, ?_⟩
      simp only [stepBot, stepApproveButton] at he
      split at he
      · exact absurd rfl he
      · rename_i u hget
        split at he
        · exact absurd rfl he
        · rename_i hst
          have hc : (applyUpdate st u today).1.corrections ≠ st.corrections := by
            split at he
            · simpa using he
            · simpa using he
          exact ⟨u, hget, not_not.mp hst,
            applyUpdate_corrections_change st u today hc⟩
    | approveCommand aid today =>
      refine ⟨aid, today, Or.inr rfl, ?_⟩
      simp only [stepBot, stepApproveCommand] at he
      split at he
      · exact absurd rfl he
      · rename_i u hget
        split at he
        · exact absurd rfl he
        · rename_i hst
          have hc : (applyUpdate st u today).1.corrections ≠ st.corrections := by
            split at he
            · simpa using he
            · simpa using he
          exact ⟨u, hget, not_not.mp hst,
            applyUpdate_corrections_change st u today hc⟩

/-- C5 witness: an admin correction message on the empty state creates
exactly one pending admin_correction update and one reviewer notification,
and leaves the documents and the correction count unchanged. -/
theorem admin_correction_gated_witness :
    (stepBot (.dm (strL "U1") corrText true [] (strL "T0")) botInit).updates
      = botInit.updates ++ [createUpdate (genId botInit.nextUid)
          (strL "admin_correction") (extractKnowledgeInfo corrText).2 corrText
          (strL "U1") (strL "T0") (some (strL "admin_dm"))]
    ∧ (stepBot (.dm (strL "U1") corrText true [] (strL "T0")) botInit).corrections
        = botInit.corrections :=
  ⟨((admin_correction_gated botInit).2.1 (strL "U1") corrText [] (strL "T0")
      (by decide)).2.1,
   ((admin_correction_gated botInit).1 (strL "U1") corrText true [] (strL "T0")).2.2⟩

/-- C8 witness: the turn inserted into an empty store carries the new
expiry deadline. -/
theorem addMessage_expiry_invariant_witness :
    (Msg.mk 0 (strL "U") (strL "user") (strL "hi") 5
        (5 + CONVERSATION_TIMEOUT_MS)).expiresAt
      = 5 + CONVERSATION_TIMEOUT_MS :=
  (addMessage_expiry_invariant ⟨[], 0⟩ (strL "U") (strL "user") (strL "hi") 5).1
    (Msg.mk 0 (strL "U") (strL "user") (strL "hi") 5
      (5 + CONVERSATION_TIMEOUT_MS)) (by decide) (by decide)
